import Mathlib

/-!
Verification of the agents_demo pipeline (schema validation, JSON extraction,
repair loop, topic sanitizer) against its specification.

The Python source is shallowly embedded: every function below mirrors one
function or validator of agents_demo.py.  Regex operations are embedded by
their operational semantics on lists of characters (the relevant character
classes are ASCII, matching the inputs the program handles).  The langchain
backend is an injected function from the invocation index to either a
response text or a transport error.  A raised Python exception is an
Except.error value.
-/

/-! ## Character classes and Python string helpers -/

/-- Python regex word character, ASCII fragment: letters, digits, underscore. -/
def isWordChar (c : Char) : Bool := c.isAlphanum || c == '_'

/-- Character class of the token regex in word_count and _limit_25:
word characters plus apostrophe and hyphen. -/
def isTokChar (c : Char) : Bool := isWordChar c || c == '\x27' || c == '-'

/-- Python str.strip and regex backslash-s whitespace. -/
def isPySpace (c : Char) : Bool :=
  [' ', '\t', '\n', '\r', '\x0b', '\x0c'].contains c

def trimStart (q : Char → Bool) (l : List Char) : List Char := l.dropWhile q

def trimEnd (q : Char → Bool) (l : List Char) : List Char := (l.reverse.dropWhile q).reverse

def trimBoth (q : Char → Bool) (l : List Char) : List Char := trimEnd q (trimStart q l)

/-- Python str.strip(). -/
def pyStrip (s : String) : String := String.mk (trimBoth isPySpace s.data)

/-- Python str.lower(), ASCII fragment. -/
def pyLower (s : String) : String := String.mk (s.data.map Char.toLower)

/-! ## The token regex of word_count and _limit_25

re.findall with pattern  backslash-b, word char, (word char or quote or
hyphen) star, backslash-b  returns, for every maximal run of token-class
characters that contains at least one word character, the segment of the run
from its first word character to its last word character. -/

/-- Maximal runs of characters satisfying p, in order, separators dropped. -/
def classRuns (p : Char → Bool) : List Char → List (List Char)
  | [] => []
  | c :: cs =>
    if p c then
      match cs with
      | [] => [[c]]
      | d :: _ =>
        if p d then
          match classRuns p cs with
          | r :: rs => (c :: r) :: rs
          | [] => [[c]]
        else [c] :: classRuns p cs
    else classRuns p cs

/-- Trim a run down to the segment between its first and last word character. -/
def trimTok (r : List Char) : List Char := trimBoth (fun c => !isWordChar c) r

def emitTok (r : List Char) : Option (List Char) :=
  if (trimTok r).isEmpty then none else some (trimTok r)

/-- All tokens of the word-token regex, as character lists. -/
def wordTokensL (cs : List Char) : List (List Char) :=
  (classRuns isTokChar cs).filterMap emitTok

/-- Source line 16: word_count counts the matches of the token regex. -/
def word_count (s : String) : Nat := (wordTokensL s.data).length

/-- Python " ".join on token lists. -/
def joinSp : List (List Char) → List Char
  | [] => []
  | [t] => t
  | t :: t2 :: ts => t ++ ' ' :: joinSp (t2 :: ts)

/-! ## Whole-word stopword removal of the tags validator (source line 33)

re.sub with pattern  backslash-b (here|the|an|a|and|of|about|topic|content|
article|post) backslash-b  and empty replacement.  A listed word matches at a
position when the previous character is absent or not a word character, the
characters of the word follow, and the next character is absent or not a word
character.  At most one alternative can match at a position (all words consist
of word characters only), so the alternation order does not matter. -/

/-- Match one banned word (given as head plus tail) at the start of cs and
require a right word boundary; return the remainder after the word. -/
def matchBanWord (a : Char) (w : List Char) (cs : List Char) : Option (List Char) :=
  match cs with
  | [] => none
  | c :: cs2 =>
    if a == c then
      match w with
      | [] =>
        match cs2 with
        | [] => some []
        | d :: _ => if isWordChar d then none else some cs2
      | b :: w2 => matchBanWord b w2 cs2
    else none

def matchAnyWord : List (List Char) → List Char → Option (List Char)
  | [], _ => none
  | [] :: rest, cs => matchAnyWord rest cs
  | (a :: w) :: rest, cs =>
    match matchBanWord a w cs with
    | some r => some r
    | none => matchAnyWord rest cs

/-- The eleven stopwords of source line 33, in alternation order. -/
def tagStopWords : List (List Char) :=
  ["here", "the", "an", "a", "and", "of", "about", "topic", "content",
   "article", "post"].map String.data

/-- Scan with the word-boundary state: prevW records whether the previous
character of the original string was a word character.  A successful match
consumes at least one character, so fuel equal to the length of the text
always suffices; the fuel-exhausted branch is unreachable. -/
def subWordsGo (l : List (List Char)) : Nat → Bool → List Char → List Char
  | 0, _, cs => cs
  | _ + 1, _, [] => []
  | f + 1, prevW, c :: cs2 =>
    if !prevW && isWordChar c then
      match matchAnyWord l (c :: cs2) with
      | some rest => subWordsGo l f true rest
      | none => c :: subWordsGo l f (isWordChar c) cs2
    else c :: subWordsGo l f (isWordChar c) cs2

/-- Source line 33: remove whole-word stopword occurrences from a tag. -/
def subStopWords (s : String) : String :=
  String.mk (subWordsGo tagStopWords s.data.length false s.data)

/-! ## Boilerplate prefix removal of the summary validator (lines 44 and 45)

Both patterns are anchored at the start (re.sub only rewrites a match of the
anchored pattern, at most once).  The dot of the lazy gap does not match a
newline; the literals are case-insensitive. -/

/-- Case-insensitive ASCII literal match; returns the remainder. -/
def ciLitRest : List Char → List Char → Option (List Char)
  | [], cs => some cs
  | _ :: _, [] => none
  | p :: ps, c :: cs => if p.toLower == c.toLower then ciLitRest ps cs else none

/-- One or more whitespace characters, greedily (followed by a literal in all
uses, so the greedy run is forced). -/
def wsPlus (cs : List Char) : Option (List Char) :=
  match cs with
  | [] => none
  | c :: cs2 => if isPySpace c then some (cs2.dropWhile isPySpace) else none

/-- The lazy gap then a colon: first colon reachable without a newline;
returns the remainder after the colon. -/
def firstColonNoNL : List Char → Option (List Char)
  | [] => none
  | c :: cs => if c == ':' then some cs else if c == '\n' then none else firstColonNoNL cs

/-- First alternative whose literal matches (the alternatives used are never
prefixes of one another, so at most one can match). -/
def altCI (alts : List String) (cs : List Char) : Option (List Char) :=
  match alts with
  | [] => none
  | a :: rest =>
    match ciLitRest a.data cs with
    | some r => some r
    | none => altCI rest cs

/-- Backslash-s-plus then lazy gap then colon: the greedy whitespace run
backtracks from longest to length one; for each length the gap to the colon
must not contain a newline. -/
def colonAfterWsGo (run rest : List Char) : Nat → Option (List Char)
  | 0 => none
  | k + 1 =>
    match firstColonNoNL (run.drop (k + 1) ++ rest) with
    | some r => some r
    | none => colonAfterWsGo run rest k

def colonAfterWs (cs : List Char) : Option (List Char) :=
  let run := cs.takeWhile isPySpace
  colonAfterWsGo run (cs.dropWhile isPySpace) run.length

/-- Source line 44: strip a leading paraphrase preamble. -/
def boiler1 (v : String) : String :=
  let step : Option (List Char) :=
    (ciLitRest "here".data (v.data.dropWhile isPySpace)).bind fun r =>
    (wsPlus r).bind fun r =>
    (ciLitRest "is".data r).bind fun r =>
    (wsPlus r).bind fun r =>
    (ciLitRest "the".data r).bind fun r =>
    (wsPlus r).bind fun r =>
    (ciLitRest "paraphrased".data r).bind fun r =>
    firstColonNoNL r
  match step with
  | some r => String.mk (r.dropWhile isPySpace)
  | none => v

/-- Source line 45: strip a leading (this|the) (article|post|content) preamble. -/
def boiler2 (v : String) : String :=
  let step : Option (List Char) :=
    (altCI ["this", "the"] (v.data.dropWhile isPySpace)).bind fun r =>
    (wsPlus r).bind fun r =>
    (altCI ["article", "post", "content"] r).bind fun r =>
    colonAfterWs r
  match step with
  | some r => String.mk (r.dropWhile isPySpace)
  | none => v

/-! ## Schema model (DataBlock, AgentJSON) -/

structure DataBlock where
  tags : List String
  summary : String
  issues : List String

structure AgentJSON where
  thought : String
  message : String
  data : DataBlock

/-- The meta-ban set of the tags validator and of demeta_tags. -/
def metaBan : List String :=
  ["json", "planner", "reviewer", "finalizer", "agent", "llm", "model", "prompt"]

/-- Loop body of the tags validator _three_tags (source lines 26 to 39):
clean accumulates accepted tags, seen the dedup set. -/
def threeTagsGo (clean seen : List String) : List String → List String
  | [] => clean
  | t :: ts =>
    let t1 := pyLower (pyStrip t)
    if t1 == "" || metaBan.contains t1 then
      threeTagsGo clean seen ts
    else
      let t2 := pyStrip (subStopWords t1)
      if t2 != "" && !(seen.contains t2) then
        let clean2 := clean ++ [t2]
        if clean2.length == 3 then clean2 else threeTagsGo clean2 (seen ++ [t2]) ts
      else
        if clean.length == 3 then clean else threeTagsGo clean seen ts

/-- Field validator _three_tags: normalize, drop banned and empty tags,
de-duplicate, stop at three, truncate to three. -/
def _three_tags (v : List String) : List String := (threeTagsGo [] [] v).take 3

/-- Field validator _limit_25 (source lines 43 to 47): strip boilerplate,
tokenize, keep the first 25 tokens, join with single spaces. -/
def _limit_25 (v : String) : String :=
  let v2 := boiler2 (boiler1 v)
  String.mk (joinSp ((wordTokensL (pyStrip v2).data).take 25))

/-- The fixed default message of the message validator and the fallback. -/
def defaultMessage : String :=
  "Draft analyzed and improved; provided concise tags and a ≤25-word summary."

/-- Field validator _ensure_message (source lines 56 to 58). -/
def _ensure_message (v : String) : String :=
  let s := pyStrip v
  if s == "" then defaultMessage else s

/-! ## JSON parsing (Python json.loads)

Standard JSON values plus the Python extensions NaN, Infinity and -Infinity.
Number values never influence validation (a number where a string or list is
required is simply a type mismatch), so numbers carry their lexeme.  Strings
are decoded with the standard escapes; a unicode escape denoting a surrogate
code unit, which a Lean Char cannot represent, decodes to U+FFFD (no claim
exercises that corner).  Duplicate object keys follow Python dict semantics:
the last binding wins (see jLookup below). -/

inductive JSONValue where
  | null
  | bool (b : Bool)
  | num (lexeme : String)
  | str (s : String)
  | arr (elems : List JSONValue)
  | obj (members : List (String × JSONValue))

/-- JSON inter-token whitespace accepted by json.loads. -/
def isJsonBlank (c : Char) : Bool := [' ', '\t', '\n', '\r'].contains c

def wsDrop (cs : List Char) : List Char := cs.dropWhile isJsonBlank

def hexDigitVal (c : Char) : Option Nat :=
  let n := c.toNat
  if 48 ≤ n && n ≤ 57 then some (n - 48)
  else if 97 ≤ n && n ≤ 102 then some (n - 87)
  else if 65 ≤ n && n ≤ 70 then some (n - 55)
  else none

def escMap (c : Char) : Option Char :=
  List.lookup c
    [('\x22', '\x22'), ('\\', '\\'), ('/', '/'), ('b', '\x08'), ('f', '\x0c'),
     ('n', '\n'), ('r', '\r'), ('t', '\t')]

/-- String body scanner, after the opening quote.  Strict mode: raw control
characters below 0x20 are rejected. -/
def strBody (acc : List Char) : List Char → Option (String × List Char)
  | [] => none
  | c :: cs =>
    if c == '\x22' then some (String.mk acc.reverse, cs)
    else if c == '\\' then
      match cs with
      | [] => none
      | e :: cs2 =>
        if e == 'u' then
          match cs2 with
          | a :: b :: c3 :: d :: cs3 =>
            match hexDigitVal a, hexDigitVal b, hexDigitVal c3, hexDigitVal d with
            | some ha, some hb, some hc, some hd =>
              let n := ha * 4096 + hb * 256 + hc * 16 + hd
              let ch := if Nat.isValidChar n then Char.ofNat n else '�'
              strBody (ch :: acc) cs3
            | _, _, _, _ => none
          | _ => none
        else
          match escMap e with
          | some ch => strBody (ch :: acc) cs2
          | none => none
    else if c.toNat < 32 then none
    else strBody (c :: acc) cs

/-- Exact literal match; returns the remainder. -/
def litRest : List Char → List Char → Option (List Char)
  | [], cs => some cs
  | _ :: _, [] => none
  | p :: ps, c :: cs => if p == c then litRest ps cs else none

/-- Integer part: zero, or a nonzero digit followed by digits. -/
def intPart : List Char → Option (List Char × List Char)
  | [] => none
  | c :: cs =>
    if c == '0' then some (['0'], cs)
    else if c.isDigit then some (c :: cs.takeWhile Char.isDigit, cs.dropWhile Char.isDigit)
    else none

/-- Optional fraction part, consumed only when a dot with at least one digit
follows. -/
def fracPart (cs : List Char) : List Char × List Char :=
  match cs with
  | '.' :: rest =>
    match rest with
    | d :: _ =>
      if d.isDigit then ('.' :: rest.takeWhile Char.isDigit, rest.dropWhile Char.isDigit)
      else ([], cs)
    | [] => ([], cs)
  | _ => ([], cs)

/-- Optional exponent part. -/
def expPart (cs : List Char) : List Char × List Char :=
  match cs with
  | e :: rest =>
    if e == 'e' || e == 'E' then
      let (sgn, rest2) :=
        match rest with
        | s :: r2 => if s == '+' || s == '-' then ([s], r2) else (([] : List Char), rest)
        | [] => ([], rest)
      match rest2 with
      | d :: _ =>
        if d.isDigit then (e :: (sgn ++ rest2.takeWhile Char.isDigit), rest2.dropWhile Char.isDigit)
        else ([], cs)
      | [] => ([], cs)
    else ([], cs)
  | [] => ([], cs)

def numBody (cs : List Char) : Option (List Char × List Char) :=
  (intPart cs).map fun p =>
    let (f, r2) := fracPart p.2
    let (ex, r3) := expPart r2
    (p.1 ++ f ++ ex, r3)

def numToken (cs : List Char) : Option (String × List Char) :=
  match cs with
  | '-' :: rest =>
    match rest with
    | 'I' :: _ => (litRest "Infinity".data rest).map fun r => ("-Infinity", r)
    | _ => (numBody rest).map fun p => (String.mk ('-' :: p.1), p.2)
  | _ => (numBody cs).map fun p => (String.mk p.1, p.2)

mutual

def jsonVal : Nat → List Char → Option (JSONValue × List Char)
  | 0, _ => none
  | f + 1, cs =>
    match wsDrop cs with
    | [] => none
    | c :: rest =>
      if c == '\x7b' then jsonObjTail f rest
      else if c == '[' then jsonArrTail f rest
      else if c == '\x22' then (strBody [] rest).map fun p => (JSONValue.str p.1, p.2)
      else if c == 't' then (litRest "rue".data rest).map fun r => (JSONValue.bool true, r)
      else if c == 'f' then (litRest "alse".data rest).map fun r => (JSONValue.bool false, r)
      else if c == 'n' then (litRest "ull".data rest).map fun r => (JSONValue.null, r)
      else if c == 'N' then (litRest "aN".data rest).map fun r => (JSONValue.num "NaN", r)
      else if c == 'I' then (litRest "nfinity".data rest).map fun r => (JSONValue.num "Infinity", r)
      else (numToken (c :: rest)).map fun p => (JSONValue.num p.1, p.2)

def jsonObjTail : Nat → List Char → Option (JSONValue × List Char)
  | 0, _ => none
  | f + 1, cs =>
    match wsDrop cs with
    | [] => none
    | c :: rest =>
      if c == '\x7d' then some (JSONValue.obj [], rest)
      else jsonPairs f (c :: rest) []

def jsonPairs : Nat → List Char → List (String × JSONValue) → Option (JSONValue × List Char)
  | 0, _, _ => none
  | f + 1, cs, acc =>
    match wsDrop cs with
    | c :: rest =>
      if c == '\x22' then
        match strBody [] rest with
        | some (k, r1) =>
          match wsDrop r1 with
          | ':' :: r3 =>
            match jsonVal f r3 with
            | some (v, r4) =>
              match wsDrop r4 with
              | ',' :: r6 => jsonPairs f r6 (acc ++ [(k, v)])
              | '\x7d' :: r6 => some (JSONValue.obj (acc ++ [(k, v)]), r6)
              | _ => none
            | none => none
          | _ => none
        | none => none
      else none
    | [] => none

def jsonArrTail : Nat → List Char → Option (JSONValue × List Char)
  | 0, _ => none
  | f + 1, cs =>
    match wsDrop cs with
    | [] => none
    | c :: rest =>
      if c == ']' then some (JSONValue.arr [], rest)
      else jsonItems f (c :: rest) []

def jsonItems : Nat → List Char → List JSONValue → Option (JSONValue × List Char)
  | 0, _, _ => none
  | f + 1, cs, acc =>
    match jsonVal f cs with
    | some (v, r) =>
      match wsDrop r with
      | ',' :: r3 => jsonItems f r3 (acc ++ [v])
      | ']' :: r3 => some (JSONValue.arr (acc ++ [v]), r3)
      | _ => none
    | none => none

end

/-- json.loads: parse one value, then only whitespace may remain (otherwise
Extra data).  The fuel bound exceeds every possible recursion depth: each
level of value nesting consumes at least one character. -/
def parseJson (s : String) : Option JSONValue :=
  match jsonVal (3 * s.length + 10) s.data with
  | some (v, rest) => if wsDrop rest == [] then some v else none
  | none => none

/-! ## Pydantic validation of AgentJSON(**json.loads(candidate))

Required keys with required types; extra keys are ignored; issues defaults to
the empty list; pydantic v2 does not coerce non-strings into str fields.  The
field validators _three_tags, _limit_25 and _ensure_message run on the
type-checked field values. -/

/-- Python dict lookup built from a member list with duplicate keys: the last
binding wins. -/
def jLookup : List (String × JSONValue) → String → Option JSONValue
  | [], _ => none
  | kv :: rest, key =>
    match jLookup rest key with
    | some r => some r
    | none => if kv.1 == key then some kv.2 else none

def asObj : JSONValue → Option (List (String × JSONValue))
  | .obj kvs => some kvs
  | _ => none

def asStr : JSONValue → Option String
  | .str s => some s
  | _ => none

def asArr : JSONValue → Option (List JSONValue)
  | .arr xs => some xs
  | _ => none

/-- Type-check a JSON array as a list of strings, elementwise. -/
def asStrList : List JSONValue → Option (List String)
  | [] => some []
  | x :: xs =>
    match x with
    | .str s => (asStrList xs).map fun l => s :: l
    | _ => none

/-- The issues field: absent means empty list, present must be a string array. -/
def issuesField : Option JSONValue → Option (List String)
  | none => some []
  | some (.arr xs) => asStrList xs
  | some _ => none

def validateDataBlock (j : JSONValue) : Option DataBlock :=
  (asObj j).bind fun dk =>
  ((jLookup dk "tags").bind asArr).bind fun txs =>
  (asStrList txs).bind fun tg =>
  ((jLookup dk "summary").bind asStr).bind fun sm =>
  (issuesField (jLookup dk "issues")).bind fun iss =>
  some (DataBlock.mk (_three_tags tg) (_limit_25 sm) iss)

def validateAgentJSON (j : JSONValue) : Option AgentJSON :=
  (asObj j).bind fun kvs =>
  ((jLookup kvs "thought").bind asStr).bind fun th =>
  ((jLookup kvs "message").bind asStr).bind fun ms =>
  (jLookup kvs "data").bind fun dj =>
  (validateDataBlock dj).bind fun db =>
  some (AgentJSON.mk th (_ensure_message ms) db)

/-! ## JSON extractor and repair loop -/

/-- Raised Python exceptions that escape call_agent: a backend transport
failure from llm.invoke, or the re.error raised at source line 80. -/
inductive CallErr where
  | transport (msg : String)
  | reError

/-- Source lines 70 to 81 (sanitize_json_text).  The stripped text is returned
when json.loads accepts it.  Otherwise the source evaluates
re.search of the pattern open-brace (?: [^ braces ] | (?R) ) star close-brace:
the Python re module does not support the recursive extension (?R), so
re.search raises re.error (unknown extension ?R) before any match is tried.
The function therefore raises on every input that is not already valid JSON. -/
def sanitize_json_text (text : String) : Except CallErr String :=
  let t := pyStrip text
  match parseJson t with
  | some _ => Except.ok t
  | none => Except.error CallErr.reError

/-- AgentJSON(**json.loads(candidate)) of source line 98: parse, then
validate; any failure is caught by the loop. -/
def attemptValidate (candidate : String) : Option AgentJSON :=
  match parseJson candidate with
  | some j => validateAgentJSON j
  | none => none

/-- The fixed fallback artifact of source lines 101 to 107; constructing the
pydantic models runs the field validators on the literal arguments. -/
def fallbackResponse : AgentJSON :=
  AgentJSON.mk "Fallback"
    (_ensure_message "Draft analyzed and improved; provided concise tags and a ≤25-word summary.")
    (DataBlock.mk (_three_tags []) (_limit_25 "Concise summary not provided by the model")
      ["autofix"])

/-- The for-loop of source lines 96 to 119.  remaining counts the repair
attempts still allowed (max_repairs minus the current k); calls counts backend
invocations already made and doubles as the invocation index.  The result
carries the total number of backend invocations. -/
def repairLoop (backend : Nat → Except String String) :
    Nat → Nat → String → Except CallErr (AgentJSON × Nat)
  | 0, calls, candidate =>
    match attemptValidate candidate with
    | some a => Except.ok (a, calls)
    | none => Except.ok (fallbackResponse, calls)
  | r + 1, calls, candidate =>
    match attemptValidate candidate with
    | some a => Except.ok (a, calls)
    | none =>
      match backend calls with
      | Except.error msg => Except.error (CallErr.transport msg)
      | Except.ok raw =>
        match sanitize_json_text raw with
        | Except.error e => Except.error e
        | Except.ok cand => repairLoop backend r (calls + 1) cand

/-- Source lines 84 to 119 (call_agent).  The backend is the injected
llm.invoke capability, a function of the invocation index; an Except.error
from it models a raised transport exception, which no handler catches.  The
first invocation and its sanitization happen before the loop. -/
def call_agent (backend : Nat → Except String String) (max_repairs : Nat) :
    Except CallErr (AgentJSON × Nat) :=
  match backend 0 with
  | Except.error msg => Except.error (CallErr.transport msg)
  | Except.ok raw =>
    match sanitize_json_text raw with
    | Except.error e => Except.error e
    | Except.ok candidate => repairLoop backend max_repairs 1 candidate

/-! ## Topic sanitizer (demeta_tags, source lines 130 to 152) -/

/-- The stopword set of the frequency backfill (source lines 141 to 145). -/
def backfillStop : List String :=
  ["the", "and", "with", "from", "that", "this", "into", "over", "under",
   "long", "term", "about", "your", "their", "very", "much", "more",
   "health", "wellness"]

def isLowerAZ (c : Char) : Bool := 'a' ≤ c && c ≤ 'z'

def isTopicChar (c : Char) : Bool := isLowerAZ c || c == '-' || c == '\x27'

/-- re.findall of the pattern  [a-z][a-z hyphen quote ]{3,}  : at a lowercase
letter the maximal run of topic characters is taken greedily; it is a token
when at least four characters long.  A failed run cannot contain a later
match start that would succeed, so scanning resumes after it.  Every step
consumes at least one character per unit of fuel, so fuel equal to the length
of the text suffices; the fuel-exhausted branch is unreachable. -/
def topicTokensGo : Nat → List Char → List String
  | 0, _ => []
  | _ + 1, [] => []
  | f + 1, c :: cs =>
    if isLowerAZ c then
      let run := c :: cs.takeWhile isTopicChar
      let rest := cs.dropWhile isTopicChar
      if 4 ≤ run.length then String.mk run :: topicTokensGo f rest
      else topicTokensGo f rest
    else topicTokensGo f cs

def topicTokens (s : String) : List String := topicTokensGo s.data.length s.data

/-- collections.Counter membership count. -/
def occCount (w : String) (ws : List String) : Nat := (ws.filter (fun x => x == w)).length

/-- Distinct words in first-occurrence order (Counter key order). -/
def dedupFirstGo (seenW : List String) : List String → List String
  | [] => []
  | w :: ws =>
    if seenW.contains w then dedupFirstGo seenW ws
    else w :: dedupFirstGo (w :: seenW) ws

def dedupFirst (ws : List String) : List String := dedupFirstGo [] ws

/-- Stable insertion for descending sort by key: an element moves before the
first strictly smaller key, so equal keys keep their original order, matching
Counter.most_common (sorted with reverse=True is stable). -/
def insertByCount (key : String → Nat) (x : String) : List String → List String
  | [] => [x]
  | y :: ys => if key y ≤ key x then x :: y :: ys else y :: insertByCount key x ys

def sortByCountDesc (key : String → Nat) : List String → List String
  | [] => []
  | x :: xs => insertByCount key x (sortByCountDesc key xs)

/-- Counter(ws).most_common(): distinct words by descending count, ties in
first-occurrence order. -/
def mostCommon (ws : List String) : List String :=
  sortByCountDesc (fun w => occCount w ws) (dedupFirst ws)

/-- The backfill loop of source lines 147 to 151. -/
def fillUp (keep : List String) : List String → List String
  | [] => keep
  | w :: ws =>
    if keep.length == 3 then keep
    else if keep.contains w then fillUp keep ws
    else fillUp (keep ++ [w]) ws

/-- Source lines 130 to 152 (demeta_tags).  Membership in the meta-ban set is
tested on the raw tag, without lowercasing; backfill tokens are frequency
tokens of the lowercased title-plus-content, excluding stopwords, and are not
tested against the meta-ban set. -/
def demeta_tags (tags : List String) (title content : String) : List String :=
  let keep := tags.filter fun t => !(metaBan.contains t)
  let keep2 :=
    if keep.length < 3 then
      let text := pyLower (title ++ " " ++ content)
      let cand := mostCommon ((topicTokens text).filter fun w => !(backfillStop.contains w))
      fillUp keep cand
    else keep
  keep2.take 3

/-! ## Spec-side shape predicate and concrete sample inputs -/

def isStrVal : JSONValue → Bool
  | .str _ => true
  | _ => false

def isStrOpt : Option JSONValue → Bool
  | some (.str _) => true
  | _ => false

def isStrArrOpt : Option JSONValue → Bool
  | some (.arr xs) => xs.all isStrVal
  | _ => false

def issuesOkOpt : Option JSONValue → Bool
  | none => true
  | some (.arr xs) => xs.all isStrVal
  | some _ => false

/-- The required JSON shape, transcribed from the specification (section 6):
an object with string fields thought and message and an object field data
holding a string array tags, a string summary and an optional string array
issues.  Written from the spec wording, to be compared with the acceptance
behavior of validateAgentJSON; note it places no condition on the number of
tags or the length of the summary. -/
def requiredShapeSpec (j : JSONValue) : Bool :=
  match j with
  | .obj kvs =>
    isStrOpt (jLookup kvs "thought") && isStrOpt (jLookup kvs "message") &&
    (match jLookup kvs "data" with
     | some (.obj dk) =>
       isStrArrOpt (jLookup dk "tags") && isStrOpt (jLookup dk "summary") &&
       issuesOkOpt (jLookup dk "issues")
     | _ => false)
  | _ => false

/-- Sample payload with five tags: well-shaped, exercising truncation. -/
def fiveTagJson : JSONValue :=
  JSONValue.obj
    [("thought", JSONValue.str "t"), ("message", JSONValue.str "m"),
     ("data", JSONValue.obj
       [("tags", JSONValue.arr
          [JSONValue.str "alpha", JSONValue.str "beta", JSONValue.str "gamma",
           JSONValue.str "delta", JSONValue.str "epsilon"]),
        ("summary", JSONValue.str "short summary"),
        ("issues", JSONValue.arr [])])]

/-- Sample payload whose message is blank after stripping. -/
def blankMsgJson : JSONValue :=
  JSONValue.obj
    [("thought", JSONValue.str "t"), ("message", JSONValue.str "  "),
     ("data", JSONValue.obj
       [("tags", JSONValue.arr []), ("summary", JSONValue.str "ok"),
        ("issues", JSONValue.arr [])])]

/-- The artifact blankMsgJson validates to: the default message replaces the
blank one. -/
def blankMsgAgent : AgentJSON :=
  AgentJSON.mk "t" defaultMessage (DataBlock.mk [] "ok" [])

/-- Sample payload whose single tag is a stopword followed by a banned meta
word: validation strips the stopword after the ban test already passed. -/
def metaTagJson : JSONValue :=
  JSONValue.obj
    [("thought", JSONValue.str "t"), ("message", JSONValue.str "m"),
     ("data", JSONValue.obj
       [("tags", JSONValue.arr [JSONValue.str "the json"]),
        ("summary", JSONValue.str "s"), ("issues", JSONValue.arr [])])]

/-- A backend response text that is valid JSON and passes validation. -/
def okJsonText : String :=
  "\x7b\"thought\":\"ok\",\"message\":\"m\",\"data\":\x7b\"tags\":[\"alpha\"],\"summary\":\"fine\",\"issues\":[]\x7d\x7d"

/-- The parse of okJsonText. -/
def okJsonVal : JSONValue :=
  JSONValue.obj
    [("thought", JSONValue.str "ok"), ("message", JSONValue.str "m"),
     ("data", JSONValue.obj
       [("tags", JSONValue.arr [JSONValue.str "alpha"]),
        ("summary", JSONValue.str "fine"), ("issues", JSONValue.arr [])])]

/-- The artifact okJsonText validates to. -/
def okAgentVal : AgentJSON :=
  AgentJSON.mk "ok" "m" (DataBlock.mk ["alpha"] "fine" [])

/-! ## Tokenization lemmas: tokens of the word regex survive a space join -/

theorem dropWhile_head_false {q : Char → Bool} {l tl : List Char} {c : Char}
    (h : l.dropWhile q = c :: tl) : q c = false := by
  induction l with
  | nil => simp [List.dropWhile] at h
  | cons a l2 ih =>
    by_cases ha : q a
    · rw [List.dropWhile_cons_of_pos ha] at h; exact ih h
    · rw [List.dropWhile_cons_of_neg ha] at h
      cases h
      exact Bool.of_not_eq_true ha

theorem mem_of_mem_dropWhile {q : Char → Bool} {l : List Char} {c : Char}
    (h : c ∈ l.dropWhile q) : c ∈ l := by
  induction l with
  | nil => simp [List.dropWhile] at h
  | cons a l2 ih =>
    by_cases ha : q a
    · rw [List.dropWhile_cons_of_pos ha] at h
      exact List.mem_cons_of_mem a (ih h)
    · rwa [List.dropWhile_cons_of_neg ha] at h

theorem dropWhile_append_exists (q : Char → Bool) (l : List Char) :
    ∃ s, l = s ++ l.dropWhile q := by
  induction l with
  | nil => exact ⟨[], rfl⟩
  | cons a l2 ih =>
    by_cases ha : q a
    · obtain ⟨s, hs⟩ := ih
      exact ⟨a :: s, by rw [List.dropWhile_cons_of_pos ha]; simpa using hs⟩
    · exact ⟨[], by rw [List.dropWhile_cons_of_neg ha]; simp⟩

theorem mem_trimEnd {q : Char → Bool} {u : List Char} {c : Char}
    (h : c ∈ trimEnd q u) : c ∈ u := by
  unfold trimEnd at h
  rw [List.mem_reverse] at h
  have := mem_of_mem_dropWhile h
  rwa [List.mem_reverse] at this

/-- trimEnd only removes a suffix. -/
theorem trimEnd_append_exists (q : Char → Bool) (u : List Char) :
    ∃ s, u = trimEnd q u ++ s := by
  obtain ⟨s, hs⟩ := dropWhile_append_exists q u.reverse
  refine ⟨s.reverse, ?_⟩
  have : u.reverse.reverse = (s ++ u.reverse.dropWhile q).reverse := by rw [← hs]
  simpa [trimEnd] using this

/-- A token is good when it is nonempty, all its characters are in the token
class, and its first and last characters are word characters. -/
def goodTok (t : List Char) : Prop :=
  t ≠ [] ∧ (∀ c ∈ t, isTokChar c = true) ∧
  (∀ c tl, t = c :: tl → isWordChar c = true) ∧
  (∀ c tl, t.reverse = c :: tl → isWordChar c = true)

theorem classRuns_nil (p : Char → Bool) : classRuns p [] = [] := rfl

theorem classRuns_single (p : Char → Bool) (c : Char) :
    classRuns p [c] = if p c then [[c]] else [] := rfl

theorem classRuns_cons_cons (p : Char → Bool) (c d : Char) (cs : List Char) :
    classRuns p (c :: d :: cs) =
      if p c then
        (if p d then
          match classRuns p (d :: cs) with
          | r :: rs => (c :: r) :: rs
          | [] => [[c]]
        else [c] :: classRuns p (d :: cs))
      else classRuns p (d :: cs) := rfl

theorem classRuns_mem {p : Char → Bool} {l : List Char} :
    ∀ r ∈ classRuns p l, r ≠ [] ∧ ∀ c ∈ r, p c = true := by
  induction l with
  | nil => simp [classRuns_nil]
  | cons c cs ih =>
    intro r hr
    cases cs with
    | nil =>
      rw [classRuns_single] at hr
      by_cases hp : p c
      · rw [if_pos hp] at hr
        simp at hr
        subst hr
        exact ⟨by simp, by simpa using hp⟩
      · rw [if_neg hp] at hr
        simp at hr
    | cons d cs2 =>
      rw [classRuns_cons_cons] at hr
      by_cases hp : p c
      · rw [if_pos hp] at hr
        by_cases hd : p d
        · rw [if_pos hd] at hr
          cases hrs : classRuns p (d :: cs2) with
          | nil =>
            rw [hrs] at hr
            simp at hr
            subst hr
            exact ⟨by simp, by simpa using hp⟩
          | cons r0 rs =>
            rw [hrs] at hr
            simp at hr
            rcases hr with hr | hr
            · subst hr
              have h0 := ih r0 (by rw [hrs]; exact List.mem_cons_self r0 rs)
              refine ⟨by simp, ?_⟩
              intro x hx
              rcases List.mem_cons.mp hx with hx | hx
              · subst hx; exact hp
              · exact h0.2 x hx
            · exact ih r (by rw [hrs]; exact List.mem_cons_of_mem r0 hr)
        · rw [if_neg hd] at hr
          rcases List.mem_cons.mp hr with hr | hr
          · subst hr
            exact ⟨by simp, by simpa using hp⟩
          · exact ih r hr
      · rw [if_neg hp] at hr
        exact ih r hr

theorem classRuns_all (p : Char → Bool) (t : List Char)
    (hne : t ≠ []) (hall : ∀ c ∈ t, p c = true) : classRuns p t = [t] := by
  induction t with
  | nil => exact absurd rfl hne
  | cons c cs ih =>
    have hc : p c = true := hall c (List.mem_cons_self c cs)
    cases cs with
    | nil => rw [classRuns_single, if_pos hc]
    | cons d cs2 =>
      have hd : p d = true := hall d (by simp)
      have ih2 := ih (by simp) (fun x hx => hall x (List.mem_cons_of_mem c hx))
      rw [classRuns_cons_cons, if_pos hc, if_pos hd, ih2]

theorem classRuns_sep {p : Char → Bool} {sep : Char} (hsep : p sep = false)
    (l : List Char) : classRuns p (sep :: l) = classRuns p l := by
  cases l with
  | nil => rw [classRuns_single, if_neg (by simp [hsep]), classRuns_nil]
  | cons a l2 => rw [classRuns_cons_cons, if_neg (by simp [hsep])]

theorem classRuns_append {p : Char → Bool} {sep : Char} (hsep : p sep = false) :
    ∀ t l, t ≠ [] → (∀ c ∈ t, p c = true) →
      classRuns p (t ++ sep :: l) = t :: classRuns p l := by
  intro t
  induction t with
  | nil => intro l h; exact absurd rfl h
  | cons c cs ih =>
    intro l _ hall
    have hc : p c = true := hall c (List.mem_cons_self c cs)
    cases cs with
    | nil =>
      show classRuns p (c :: sep :: l) = [c] :: classRuns p l
      rw [classRuns_cons_cons, if_pos hc, if_neg (by simp [hsep]), classRuns_sep hsep]
    | cons d cs2 =>
      have hd : p d = true := hall d (by simp)
      have ih2 := ih l (by simp) (fun x hx => hall x (List.mem_cons_of_mem c hx))
      have hsplit : (d :: cs2) ++ sep :: l = d :: (cs2 ++ sep :: l) := rfl
      show classRuns p (c :: ((d :: cs2) ++ sep :: l)) = (c :: d :: cs2) :: classRuns p l
      rw [hsplit, classRuns_cons_cons, if_pos hc, if_pos hd, ← hsplit, ih2]

theorem classRuns_joinSp {p : Char → Bool} (hsep : p ' ' = false) :
    ∀ ts : List (List Char), (∀ t ∈ ts, t ≠ [] ∧ ∀ c ∈ t, p c = true) →
      classRuns p (joinSp ts) = ts := by
  intro ts
  induction ts with
  | nil => intro _; simp [joinSp, classRuns]
  | cons t ts2 ih =>
    intro hall
    have ht := hall t (List.mem_cons_self t ts2)
    cases ts2 with
    | nil => exact classRuns_all p t ht.1 ht.2
    | cons t2 ts3 =>
      have ih2 := ih (fun x hx => hall x (List.mem_cons_of_mem t hx))
      show classRuns p (t ++ ' ' :: joinSp (t2 :: ts3)) = t :: t2 :: ts3
      rw [classRuns_append hsep t _ ht.1 ht.2, ih2]

theorem trimTok_of_good {t : List Char} (h : goodTok t) : trimTok t = t := by
  obtain ⟨hne, _, hhd, hlast⟩ := h
  cases t with
  | nil => exact absurd rfl hne
  | cons c tl =>
    have hc : isWordChar c = true := hhd c tl rfl
    have h1 : trimStart (fun c => !isWordChar c) (c :: tl) = c :: tl := by
      unfold trimStart
      exact List.dropWhile_cons_of_neg (by simp [hc])
    show trimEnd (fun c => !isWordChar c) (trimStart (fun c => !isWordChar c) (c :: tl)) = c :: tl
    rw [h1]
    unfold trimEnd
    cases hrev : (c :: tl).reverse with
    | nil => simp at hrev
    | cons y ys =>
      have hy : isWordChar y = true := hlast y ys hrev
      have h2 : List.dropWhile (fun c => !isWordChar c) (y :: ys) = y :: ys :=
        List.dropWhile_cons_of_neg (by simp [hy])
      rw [h2, ← hrev, List.reverse_reverse]

theorem goodTok_of_emit {r t : List Char} (_hr : r ≠ [])
    (hall : ∀ c ∈ r, isTokChar c = true) (he : emitTok r = some t) : goodTok t := by
  unfold emitTok at he
  by_cases hemp : (trimTok r).isEmpty
  · rw [if_pos hemp] at he; cases he
  · rw [if_neg hemp] at he
    have ht : t = trimTok r := by cases he; rfl
    subst ht
    have htne : trimTok r ≠ [] := by
      intro hnil
      rw [hnil] at hemp
      exact hemp rfl
    refine ⟨htne, ?_, ?_, ?_⟩
    · intro c hc
      have h1 : c ∈ trimStart (fun c => !isWordChar c) r := mem_trimEnd hc
      exact hall c (mem_of_mem_dropWhile h1)
    · intro c tl hct
      obtain ⟨s, hs⟩ := trimEnd_append_exists (fun c => !isWordChar c) (trimStart (fun c => !isWordChar c) r)
      have hu : trimStart (fun c => !isWordChar c) r = c :: (tl ++ s) := by
        rw [hs]
        show trimTok r ++ s = c :: (tl ++ s)
        rw [hct]
        simp
      have := dropWhile_head_false hu
      simpa using this
    · intro c tl hct
      have hrev : (trimStart (fun c => !isWordChar c) r).reverse.dropWhile (fun c => !isWordChar c) = c :: tl := by
        have : (trimTok r).reverse = c :: tl := hct
        rw [show trimTok r = trimEnd (fun c => !isWordChar c) (trimStart (fun c => !isWordChar c) r) from rfl] at this
        unfold trimEnd at this
        rwa [List.reverse_reverse] at this
      have := dropWhile_head_false hrev
      simpa using this

theorem wordTok_good {cs : List Char} : ∀ t ∈ wordTokensL cs, goodTok t := by
  intro t ht
  unfold wordTokensL at ht
  rw [List.mem_filterMap] at ht
  obtain ⟨r, hrmem, he⟩ := ht
  have hrprops := classRuns_mem r hrmem
  exact goodTok_of_emit hrprops.1 hrprops.2 he

theorem emitTok_of_good {t : List Char} (h : goodTok t) : emitTok t = some t := by
  unfold emitTok
  rw [trimTok_of_good h]
  rw [if_neg (by simp [List.isEmpty_iff, h.1])]

theorem filterMap_emit_id : ∀ ts : List (List Char), (∀ t ∈ ts, goodTok t) →
    ts.filterMap emitTok = ts := by
  intro ts
  induction ts with
  | nil => intro _; rfl
  | cons t ts2 ih =>
    intro h
    rw [List.filterMap_cons, emitTok_of_good (h t (List.mem_cons_self t ts2)),
      ih (fun x hx => h x (List.mem_cons_of_mem t hx))]

theorem wordTokensL_joinSp {ts : List (List Char)} (h : ∀ t ∈ ts, goodTok t) :
    wordTokensL (joinSp ts) = ts := by
  unfold wordTokensL
  rw [classRuns_joinSp (by decide) ts (fun t ht => ⟨(h t ht).1, (h t ht).2.1⟩),
    filterMap_emit_id ts h]

/-- Every join of at most 25 good tokens counts as at most 25 words: the
summary truncation really bounds word_count. -/
theorem wc_limit25 (v : String) : word_count (_limit_25 v) ≤ 25 := by
  have hv : _limit_25 v =
      String.mk (joinSp ((wordTokensL (pyStrip (boiler2 (boiler1 v))).data).take 25)) := rfl
  rw [hv]
  have hgood : ∀ t ∈ (wordTokensL (pyStrip (boiler2 (boiler1 v))).data).take 25, goodTok t := by
    intro t ht
    exact wordTok_good t (List.mem_of_mem_take ht)
  have hwc : word_count
      (String.mk (joinSp ((wordTokensL (pyStrip (boiler2 (boiler1 v))).data).take 25))) =
      ((wordTokensL (pyStrip (boiler2 (boiler1 v))).data).take 25).length := by
    unfold word_count
    rw [show (String.mk (joinSp ((wordTokensL (pyStrip (boiler2 (boiler1 v))).data).take 25))).data
        = joinSp ((wordTokensL (pyStrip (boiler2 (boiler1 v))).data).take 25) from rfl]
    rw [wordTokensL_joinSp hgood]
  rw [hwc]
  exact List.length_take_le 25 _

theorem three_tags_le (v : List String) : (_three_tags v).length ≤ 3 := by
  unfold _three_tags
  exact List.length_take_le 3 _

/-! ## Validation lemmas -/

theorem isStrOpt_iff (o : Option JSONValue) :
    isStrOpt o = true ↔ ∃ s, o = some (JSONValue.str s) := by
  cases o with
  | none => simp [isStrOpt]
  | some v => cases v <;> simp [isStrOpt]

theorem isStrArrOpt_iff (o : Option JSONValue) :
    isStrArrOpt o = true ↔ ∃ xs, o = some (JSONValue.arr xs) ∧ xs.all isStrVal = true := by
  cases o with
  | none => simp [isStrArrOpt]
  | some v => cases v <;> simp [isStrArrOpt]

theorem asStrList_of_all {xs : List JSONValue} (h : xs.all isStrVal = true) :
    ∃ l, asStrList xs = some l := by
  induction xs with
  | nil => exact ⟨[], rfl⟩
  | cons x xs2 ih =>
    rw [List.all_cons, Bool.and_eq_true] at h
    obtain ⟨l, hl⟩ := ih h.2
    have hx := h.1
    cases x
    case str s => exact ⟨s :: l, by simp [asStrList, hl]⟩
    all_goals simp [isStrVal] at hx

theorem issuesOk_field {o : Option JSONValue} (h : issuesOkOpt o = true) :
    ∃ l, issuesField o = some l := by
  cases o with
  | none => exact ⟨[], rfl⟩
  | some v =>
    cases v
    case arr xs =>
      have h2 : xs.all isStrVal = true := h
      obtain ⟨l, hl⟩ := asStrList_of_all h2
      exact ⟨l, hl⟩
    all_goals exact Bool.noConfusion h

/-- Everything of the required shape is accepted by validation. -/
theorem requiredShape_validates {j : JSONValue} (h : requiredShapeSpec j = true) :
    ∃ a, validateAgentJSON j = some a := by
  cases j
  case obj kvs =>
    simp only [requiredShapeSpec, Bool.and_eq_true] at h
    obtain ⟨⟨hth, hms⟩, hdata⟩ := h
    obtain ⟨th, hth2⟩ := (isStrOpt_iff _).mp hth
    obtain ⟨ms, hms2⟩ := (isStrOpt_iff _).mp hms
    revert hdata
    cases hd : jLookup kvs "data" with
    | none => intro hdata; simp at hdata
    | some dv =>
      cases dv
      case obj dk =>
        intro hdata
        simp only [Bool.and_eq_true] at hdata
        obtain ⟨⟨htags, hsum⟩, hiss⟩ := hdata
        obtain ⟨txs, htags2, hall⟩ := (isStrArrOpt_iff _).mp htags
        obtain ⟨sm, hsum2⟩ := (isStrOpt_iff _).mp hsum
        obtain ⟨tg, htg⟩ := asStrList_of_all hall
        obtain ⟨iss, hiss2⟩ := issuesOk_field hiss
        refine ⟨AgentJSON.mk th (_ensure_message ms)
          (DataBlock.mk (_three_tags tg) (_limit_25 sm) iss), ?_⟩
        simp [validateAgentJSON, validateDataBlock, asObj, asStr, asArr,
          hth2, hms2, hd, htags2, htg, hsum2, hiss2]
      all_goals (intro hdata; simp at hdata)
  all_goals simp [requiredShapeSpec] at h

/-- Inversion: every validated artifact was built by the three field
validators. -/
theorem validate_fields {j : JSONValue} {a : AgentJSON}
    (h : validateAgentJSON j = some a) :
    (∃ ms, a.message = _ensure_message ms) ∧ (∃ tg, a.data.tags = _three_tags tg) ∧
    (∃ sm, a.data.summary = _limit_25 sm) := by
  unfold validateAgentJSON at h
  rw [Option.bind_eq_some] at h
  obtain ⟨kvs, _, h⟩ := h
  rw [Option.bind_eq_some] at h
  obtain ⟨th, _, h⟩ := h
  rw [Option.bind_eq_some] at h
  obtain ⟨ms, _, h⟩ := h
  rw [Option.bind_eq_some] at h
  obtain ⟨dj, _, h⟩ := h
  rw [Option.bind_eq_some] at h
  obtain ⟨db, hdb, h⟩ := h
  injection h with h2
  unfold validateDataBlock at hdb
  rw [Option.bind_eq_some] at hdb
  obtain ⟨dk, _, hdb⟩ := hdb
  rw [Option.bind_eq_some] at hdb
  obtain ⟨txs, _, hdb⟩ := hdb
  rw [Option.bind_eq_some] at hdb
  obtain ⟨tg, _, hdb⟩ := hdb
  rw [Option.bind_eq_some] at hdb
  obtain ⟨sm, _, hdb⟩ := hdb
  rw [Option.bind_eq_some] at hdb
  obtain ⟨iss, _, hdb⟩ := hdb
  injection hdb with hdb2
  subst h2
  subst hdb2
  exact ⟨⟨ms, rfl⟩, ⟨tg, rfl⟩, ⟨sm, rfl⟩⟩

theorem ensure_message_ne (m : String) : _ensure_message m ≠ "" := by
  unfold _ensure_message
  by_cases h : pyStrip m == ""
  · rw [if_pos h]
    decide
  · rw [if_neg h]
    simpa using h

/-! ## Topic sanitizer lemmas -/

theorem fillUp_mem {t : String} :
    ∀ (l keep : List String), t ∈ fillUp keep l → t ∈ keep ∨ t ∈ l := by
  intro l
  induction l with
  | nil => intro keep h; exact Or.inl h
  | cons w ws ih =>
    intro keep h
    rw [fillUp] at h
    by_cases h3 : keep.length == 3
    · rw [if_pos h3] at h
      exact Or.inl h
    · rw [if_neg h3] at h
      by_cases hc : keep.contains w
      · rw [if_pos hc] at h
        rcases ih keep h with h | h
        · exact Or.inl h
        · exact Or.inr (List.mem_cons_of_mem w h)
      · rw [if_neg hc] at h
        rcases ih (keep ++ [w]) h with h | h
        · rcases List.mem_append.mp h with h | h
          · exact Or.inl h
          · simp at h
            rw [h]
            exact Or.inr (List.mem_cons_self w ws)
        · exact Or.inr (List.mem_cons_of_mem w h)

theorem insertByCount_mem {t x : String} {key : String → Nat} :
    ∀ l, t ∈ insertByCount key x l → t = x ∨ t ∈ l := by
  intro l
  induction l with
  | nil =>
    intro h
    simp [insertByCount] at h
    exact Or.inl h
  | cons y ys ih =>
    intro h
    rw [insertByCount] at h
    by_cases hk : key y ≤ key x
    · rw [if_pos hk] at h
      rcases List.mem_cons.mp h with h | h
      · exact Or.inl h
      · exact Or.inr h
    · rw [if_neg hk] at h
      rcases List.mem_cons.mp h with h | h
      · subst h
        exact Or.inr (List.mem_cons_self t ys)
      · rcases ih h with h | h
        · exact Or.inl h
        · exact Or.inr (List.mem_cons_of_mem y h)

theorem sortByCountDesc_mem {t : String} {key : String → Nat} :
    ∀ l, t ∈ sortByCountDesc key l → t ∈ l := by
  intro l
  induction l with
  | nil => intro h; simp [sortByCountDesc] at h
  | cons x xs ih =>
    intro h
    rw [sortByCountDesc] at h
    rcases insertByCount_mem _ h with h | h
    · subst h
      exact List.mem_cons_self t xs
    · exact List.mem_cons_of_mem x (ih h)

theorem dedupFirstGo_mem {t : String} :
    ∀ (l seen : List String), t ∈ dedupFirstGo seen l → t ∈ l := by
  intro l
  induction l with
  | nil => intro seen h; simp [dedupFirstGo] at h
  | cons w ws ih =>
    intro seen h
    rw [dedupFirstGo] at h
    by_cases hc : seen.contains w
    · rw [if_pos hc] at h
      exact List.mem_cons_of_mem w (ih seen h)
    · rw [if_neg hc] at h
      rcases List.mem_cons.mp h with h | h
      · subst h
        exact List.mem_cons_self t ws
      · exact List.mem_cons_of_mem w (ih (w :: seen) h)

theorem mostCommon_mem {t : String} {ws : List String} (h : t ∈ mostCommon ws) :
    t ∈ ws := by
  unfold mostCommon at h
  exact dedupFirstGo_mem ws [] (sortByCountDesc_mem _ h)

theorem filter_ban_mem {t : String} {tags : List String}
    (h : t ∈ tags.filter fun x => !(metaBan.contains x)) : t ∈ tags ∧ t ∉ metaBan := by
  have h2 := List.mem_filter.mp h
  refine ⟨h2.1, fun hmem => ?_⟩
  have hc : metaBan.contains t = true := by simp [hmem]
  have h3 := h2.2
  rw [hc] at h3
  simp at h3

/-! ## Claim theorems -/

/-- Claim C1: the JSON extractor is claimed total and never raising, and for
inputs with no balanced object the original text is claimed to be returned.
The code instead raises: for the input hello, which is not valid JSON, the
recursive-regex search of source line 80 raises re.error, because the Python
re module does not support the recursive extension, so sanitize_json_text
raises instead of returning a string. -/
theorem c1_extractor_raises :
    sanitize_json_text "hello" = Except.error CallErr.reError := rfl

/-- Claim C2: the repair loop is claimed never to propagate content-level
failures.  With a backend whose response text is not valid JSON, call_agent
raises re.error from sanitize_json_text before the loop can repair, so a
parse-level malformation escapes to the caller. -/
theorem c2_repair_loop_raises :
    call_agent (fun _ => Except.ok "hello there") 2 = Except.error CallErr.reError := rfl

/-- Claim C3: with maxRepairs one and a backend that always returns text
failing JSON parse, the claim demands exactly two invocations and the
fallback artifact; the code instead raises re.error after the first
invocation. -/
theorem c3_invalid_backend_raises :
    call_agent (fun _ => Except.ok "not json") 1 = Except.error CallErr.reError := rfl

/-- Claim C4, counterexample: the claimed lowercase-membership ban test does
not hold: the tag JSON in capitals survives demeta_tags untouched although
its lowercase form is in the meta-ban set. -/
theorem c4_counterexample :
    "JSON" ∈ demeta_tags ["JSON", "beta", "gamma"] "t" "c" ∧ pyLower "JSON" ∈ metaBan := by
  constructor
  · have h : demeta_tags ["JSON", "beta", "gamma"] "t" "c" = ["JSON", "beta", "gamma"] := rfl
    rw [h]
    simp
  · have h : pyLower "JSON" = "json" := rfl
    rw [h]
    decide

/-- Claim C4, amended: demeta_tags returns at most three tags, and every
returned tag either comes from the input list and is not an exact
(case-sensitive, no lowercasing) member of the meta-ban set, or is a
frequency token backfilled from title plus content (such backfill tokens are
not screened against the ban set). -/
theorem c4_sanitize_amended (tags : List String) (title content : String) :
    (demeta_tags tags title content).length ≤ 3 ∧
    ∀ t ∈ demeta_tags tags title content,
      (t ∈ tags ∧ t ∉ metaBan) ∨ t ∈ topicTokens (pyLower (title ++ " " ++ content)) := by
  constructor
  · exact List.length_take_le 3 _
  · intro t ht
    have ht2 : t ∈ (if (tags.filter fun t => !(metaBan.contains t)).length < 3 then
        fillUp (tags.filter fun t => !(metaBan.contains t))
          (mostCommon ((topicTokens (pyLower (title ++ " " ++ content))).filter
            fun w => !(backfillStop.contains w)))
      else tags.filter fun t => !(metaBan.contains t)) := List.mem_of_mem_take ht
    by_cases hlen : (tags.filter fun t => !(metaBan.contains t)).length < 3
    · rw [if_pos hlen] at ht2
      rcases fillUp_mem _ _ ht2 with h | h
      · exact Or.inl (filter_ban_mem h)
      · exact Or.inr (List.mem_filter.mp (mostCommon_mem h)).1
    · rw [if_neg hlen] at ht2
      exact Or.inl (filter_ban_mem ht2)

/-- Claim C5: everything of the required JSON shape is accepted by schema
validation (in particular, no tag count can cause rejection: over-long lists
are truncated), and the artifact satisfies the tag and summary bounds. -/
theorem c5_schema_bounds (j : JSONValue) (h : requiredShapeSpec j = true) :
    ∃ a, validateAgentJSON j = some a ∧ a.data.tags.length ≤ 3 ∧
      word_count a.data.summary ≤ 25 := by
  obtain ⟨a, ha⟩ := requiredShape_validates h
  obtain ⟨_, ⟨tg, htg⟩, ⟨sm, hsm⟩⟩ := validate_fields ha
  exact ⟨a, ha, by rw [htg]; exact three_tags_le tg, by rw [hsm]; exact wc_limit25 sm⟩

/-- Claim C6: when the first backend response is valid JSON that passes
schema validation, call_agent returns the validated artifact after exactly
one backend invocation. -/
theorem c6_short_circuit (backend : Nat → Except String String) (mr : Nat)
    (raw : String) (j : JSONValue) (a : AgentJSON)
    (hb : backend 0 = Except.ok raw) (hp : parseJson (pyStrip raw) = some j)
    (hv : validateAgentJSON j = some a) :
    call_agent backend mr = Except.ok (a, 1) := by
  have hs : sanitize_json_text raw = Except.ok (pyStrip raw) := by
    show (match parseJson (pyStrip raw) with
          | some _ => Except.ok (pyStrip raw)
          | none => Except.error CallErr.reError) = Except.ok (pyStrip raw)
    rw [hp]
  have hav : attemptValidate (pyStrip raw) = some a := by
    unfold attemptValidate
    rw [hp]
    exact hv
  unfold call_agent
  rw [hb]
  show (match sanitize_json_text raw with
        | Except.error e => Except.error e
        | Except.ok candidate => repairLoop backend mr 1 candidate) = Except.ok (a, 1)
  rw [hs]
  show repairLoop backend mr 1 (pyStrip raw) = Except.ok (a, 1)
  cases mr with
  | zero => rw [repairLoop, hav]
  | succ r => rw [repairLoop, hav]

/-- Claim C7: a transport error raised by the backend on its first invocation
propagates out of call_agent; the repair loop neither catches it nor returns
the fallback. -/
theorem c7_transport_propagates (backend : Nat → Except String String) (mr : Nat)
    (msg : String) (hb : backend 0 = Except.error msg) :
    call_agent backend mr = Except.error (CallErr.transport msg) := by
  unfold call_agent
  rw [hb]

/-- Claim C8: a three-element tag list with no element in the meta-ban set is
returned unchanged by demeta_tags, for any title and content. -/
theorem c8_sanitize_idempotent (tags : List String) (title content : String)
    (hlen : tags.length = 3) (hban : ∀ t ∈ tags, t ∉ metaBan) :
    demeta_tags tags title content = tags := by
  have hfilter : tags.filter (fun t => !(metaBan.contains t)) = tags := by
    rw [List.filter_eq_self]
    intro a ha
    simp [hban a ha]
  show (if (tags.filter fun t => !(metaBan.contains t)).length < 3 then
      fillUp (tags.filter fun t => !(metaBan.contains t))
        (mostCommon ((topicTokens (pyLower (title ++ " " ++ content))).filter
          fun w => !(backfillStop.contains w)))
    else tags.filter fun t => !(metaBan.contains t)).take 3 = tags
  rw [hfilter, hlen]
  rw [if_neg (by omega)]
  exact List.take_of_length_le (by rw [hlen])

/-- Claim C9: every validated artifact has a non-empty message, and a message
that is blank after stripping is replaced by the fixed default message. -/
theorem c9_message_nonempty :
    (∀ (j : JSONValue) (a : AgentJSON), validateAgentJSON j = some a → a.message ≠ "") ∧
    (∀ m : String, pyStrip m = "" → _ensure_message m = defaultMessage) := by
  constructor
  · intro j a h
    obtain ⟨⟨ms, hms⟩, _, _⟩ := validate_fields h
    rw [hms]
    exact ensure_message_ne ms
  · intro m hm
    unfold _ensure_message
    rw [if_pos (by simp [hm])]

/-- Claim C10: the meta-ban test of the tags validator runs before stopword
removal, so an input that passes validation can yield tags containing a
banned meta word: the tag  the json  validates to the tag json. -/
theorem c10_meta_tag_survives :
    ∃ a, validateAgentJSON metaTagJson = some a ∧ "json" ∈ a.data.tags ∧
      "json" ∈ metaBan := by
  refine ⟨AgentJSON.mk "t" "m" (DataBlock.mk ["json"] "s" []), ?_, ?_, ?_⟩
  · rfl
  · simp
  · decide

/-! ## Witnesses: the claim theorems applied at concrete inputs -/

/-- Witness for claim C4: a concrete tag of the result is accounted for by the
amended provenance statement. -/
theorem c4_witness :
    (demeta_tags ["spark", "tide", "moss"] "a" "b").length ≤ 3 ∧
    (("spark" ∈ ["spark", "tide", "moss"] ∧ "spark" ∉ metaBan) ∨
      "spark" ∈ topicTokens (pyLower ("a" ++ " " ++ "b"))) :=
  ⟨(c4_sanitize_amended ["spark", "tide", "moss"] "a" "b").1,
   (c4_sanitize_amended ["spark", "tide", "moss"] "a" "b").2 "spark" (by decide)⟩

/-- Witness for claim C5: the five-tag sample is accepted and bounded. -/
theorem c5_witness :
    requiredShapeSpec fiveTagJson = true ∧
    (∃ a, validateAgentJSON fiveTagJson = some a ∧ a.data.tags.length ≤ 3 ∧
      word_count a.data.summary ≤ 25) :=
  ⟨rfl, c5_schema_bounds fiveTagJson rfl⟩

/-- Witness for claim C6: a backend answering with valid schema-passing JSON
is invoked exactly once. -/
theorem c6_witness :
    call_agent (fun _ => Except.ok okJsonText) 2 = Except.ok (okAgentVal, 1) :=
  c6_short_circuit (fun _ => Except.ok okJsonText) 2 okJsonText okJsonVal okAgentVal
    rfl rfl rfl

/-- Witness for claim C7: a concrete raising backend aborts the run. -/
theorem c7_witness :
    call_agent (fun _ => Except.error "boom") 3 =
      Except.error (CallErr.transport "boom") :=
  c7_transport_propagates (fun _ => Except.error "boom") 3 "boom" rfl

/-- Witness for claim C8: a concrete clean three-tag list is unchanged. -/
theorem c8_witness :
    demeta_tags ["aa", "bb", "cc"] "ti" "co" = ["aa", "bb", "cc"] :=
  c8_sanitize_idempotent ["aa", "bb", "cc"] "ti" "co" rfl (by decide)

/-- Witness for claim C9: the blank-message sample validates with the default
message, which is non-empty. -/
theorem c9_witness :
    (validateAgentJSON blankMsgJson = some blankMsgAgent ∧ blankMsgAgent.message ≠ "") ∧
    _ensure_message "  " = defaultMessage :=
  ⟨⟨rfl, c9_message_nonempty.1 blankMsgJson blankMsgAgent rfl⟩,
   c9_message_nonempty.2 "  " rfl⟩
